import Mathlib

/-!
Verification of the theca profile store (src/src/theca/profile.rs,
src/src/theca/lib.rs, src/src/theca/item.rs, src/src/utils.rs).

The Rust code is shallowly embedded: pure functions become Lean functions,
the filesystem becomes an explicit association list from paths to file
contents, and the external collaborators (console confirmation prompts,
piped standard input, the external editor, key derivation, the fingerprint
digest, the clock) become an explicit environment record.  Fallible Rust
code returning `Result` becomes `Except Err`.
-/

set_option autoImplicit false

namespace Theca

/-- Status enumeration from src/src/theca/item.rs (variants Blank, Started,
Urgent). -/
inductive Status
  | Blank
  | Started
  | Urgent
deriving DecidableEq, Repr

/-- Note record from src/src/theca/item.rs: id, title, status, body and the
last-touched timestamp string. -/
structure Item where
  id : Nat
  title : String
  status : Status
  body : String
  last_touched : String
deriving DecidableEq, Repr

/-- Profile container from src/src/theca/profile.rs: encrypted flag plus the
ordered note sequence. -/
structure Profile where
  encrypted : Bool
  notes : List Item
deriving DecidableEq, Repr

/-! ## format_field (src/src/utils.rs lines 145-151)

Rust renders with the format string "{: <1$.1$}": left-aligned padding to a
width equal to the precision, the precision truncating the value to that many
characters.  `padTrunc value w` models exactly that: truncate to `w`
characters, then pad with spaces up to `w`. -/

/-- Truncate a string to `w` characters and left-align pad it to `w`,
modelling the Rust format specifier with equal width and precision. -/
def padTrunc (value : String) (w : Nat) : String :=
  let t := value.data.take w
  String.mk (t ++ List.replicate (w - t.length) ' ')

/-- Embedding of format_field from src/src/utils.rs: when the value is longer
than the width, the width exceeds 3 and truncation is on, render the first
width-3 characters followed by a three-character ellipsis; otherwise render
the value truncated-and-padded to exactly the width. -/
def format_field (value : String) (width : Nat) (truncate : Bool) : String :=
  if value.length > width ∧ width > 3 ∧ truncate = true then
    padTrunc value (width - 3) ++ "..."
  else
    padTrunc value width

/-! ## Status decoding (src/src/theca/item.rs lines 103-118) -/

/-- Decoder-side errors for the Status decoder model. -/
inductive DecodeErr
  | unknownVariant (name : String)
  | unreachableVariant (idx : Nat)
deriving DecidableEq, Repr

/-- Index of the first occurrence of `input` in `names`, if any. -/
def variantIndex (names : List String) (input : String) : Option Nat :=
  match names with
  | [] => none
  | n :: rest =>
    if n = input then some 0 else (variantIndex rest input).map (fun i => i + 1)

/-- Modelled from the spec: the serialization collaborator (the
rustc_serialize JSON decoder behind Decodable for Status, external to the
repository) resolves an enum variant by looking the input string up in the
declared variant-name list and passing the found index to the decoding
closure, failing on an unknown variant name. -/
def read_enum_variant (names : List String) (f : Nat → Except DecodeErr Status)
    (input : String) : Except DecodeErr Status :=
  match variantIndex names input with
  | some i => f i
  | none => .error (.unknownVariant input)

/-- Declared variant names of Status as listed in Status::decode. -/
def statusVariantNames : List String := ["", "Started", "Urgent"]

/-- The match on the variant index inside Status::decode; the catch-all arm
models the panic branch for any index other than 0, 1 or 2. -/
def statusFromVariantIdx : Nat → Except DecodeErr Status
  | 0 => .ok Status.Blank
  | 1 => .ok Status.Started
  | 2 => .ok Status.Urgent
  | i => .error (.unreachableVariant i)

/-- Embedding of Status::decode from src/src/theca/item.rs. -/
def Status.decode (input : String) : Except DecodeErr Status :=
  read_enum_variant statusVariantNames statusFromVariantIdx input

/-! ## Environment, errors, filesystem -/

/-- Confirmation prompts issued through get_yn_input, identified
structurally. -/
inductive Prompt
  | createDir (path : String)
  | overwriteProfile (path : String)
  | merge (profileName : String)
  | clearAll
  | encryptedEditWarning
deriving DecidableEq, Repr

/-- Typed failures of the profile store (specific_fail sites and modelled
panics). -/
inductive Err
  | userAborted
  | noteNotFound (id : Nat)
  | profileNotFound (path : String)
  | decryptionError (path : String)
  | malformedProfile (path : String)
  | selfTransfer (name : String)
  | transferFailed (id : Nat)
  | transferIncomplete (id : Nat)
  | statsEmpty
  | indexPanic
  | outOfFuel
deriving DecidableEq, Repr

/-- One profile file on disk: the decoded profile content (the JSON text form
round-trips, so the file is modelled by the profile it encodes) together with
the key it was encrypted with, if any. -/
structure FsFile where
  prof : Profile
  enc : Option String
deriving DecidableEq, Repr

/-- The filesystem: an association list from file paths to file contents. -/
abbrev Disk := List (String × FsFile)

/-- Lookup of a path on disk. -/
def diskGet (d : Disk) (p : String) : Option FsFile :=
  match d with
  | [] => none
  | (q, f) :: rest => if q = p then some f else diskGet rest p

/-- Overwrite or create a file on disk. -/
def diskPut (d : Disk) (p : String) (f : FsFile) : Disk :=
  match d with
  | [] => [(p, f)]
  | (q, g) :: rest => if q = p then (q, f) :: rest else (q, g) :: diskPut rest p f

/-- Filesystem plus the set of existing profile folders. -/
structure World where
  disk : Disk
  dirs : List String
deriving DecidableEq, Repr

/-- External collaborators consumed by the core: confirmation prompts, piped
standard input, the external editor, interactive-terminal detection, the
password prompt, the file fingerprint digest, and the clock. -/
structure Env where
  confirm : Prompt → Bool
  stdin : String
  editor : String → String
  tty : Bool
  password : String
  fpOf : FsFile → Nat
  now : String

/-- Modelled from the spec: the key-derivation collaborator
(password_to_key, in the crypt module absent from src); modelled as an
injective map on passphrases. -/
def password_to_key (pass : String) : String := pass

/-- Path of a profile file: resolved folder joined with name.json (the folder
resolution itself is a collaborator, modelled as the identity). -/
def profilePath (folder name : String) : String :=
  folder ++ "/" ++ name ++ ".json"

/-- Rust title.replace of newlines by the empty string. -/
def stripNL (s : String) : String :=
  String.mk (s.data.filter (fun c => c ≠ '\n'))

/-- Index 0 of a Rust Vec; out of bounds is a panic, modelled as an error. -/
def listGet0 {α : Type} (l : List α) : Except Err α :=
  match l with
  | [] => .error .indexPanic
  | a :: _ => .ok a

/-- Assignment to index 0 of a Rust Vec; out of bounds is a panic. -/
def listSet0 {α : Type} (l : List α) (v : α) : Except Err (List α) :=
  match l with
  | [] => .error .indexPanic
  | _ :: rest => .ok (v :: rest)

/-! ## Args and flags (src/src/theca/lib.rs) -/

/-- Command-line argument record from src/src/theca/lib.rs. -/
structure Args where
  cmd_add : Bool
  cmd_clear : Bool
  cmd_del : Bool
  cmd_decrypt_profile : Bool
  cmd_edit : Bool
  cmd_encrypt_profile : Bool
  cmd_import : Bool
  cmd_info : Bool
  cmd_list_profiles : Bool
  cmd_new_profile : Bool
  cmd_search : Bool
  cmd_transfer : Bool
  cmd__ : Bool
  arg_id : List Nat
  arg_name : List String
  arg_pattern : String
  arg_title : String
  flag_body : List String
  flag_condensed : Bool
  flag_datesort : Bool
  flag_editor : Bool
  flag_encrypted : Bool
  flag_json : Bool
  flag_key : String
  flag_limit : Nat
  flag_new_key : String
  flag_none : Bool
  flag_profile : String
  flag_profile_folder : String
  flag_regex : Bool
  flag_reverse : Bool
  flag_search_body : Bool
  flag_started : Bool
  flag_urgent : Bool
  flag_version : Bool
  flag_yes : Bool
deriving DecidableEq, Repr

/-- Boolean flag bundle from src/src/theca/lib.rs. -/
structure BoolFlags where
  condensed : Bool
  datesort : Bool
  editor : Bool
  encrypted : Bool
  json : Bool
  regex : Bool
  reverse : Bool
  search_body : Bool
  yes : Bool
deriving DecidableEq, Repr

/-- BoolFlags::from_args. -/
def BoolFlags.from_args (args : Args) : BoolFlags :=
  { condensed := args.flag_condensed
    datesort := args.flag_datesort
    editor := args.flag_editor
    encrypted := args.flag_encrypted
    json := args.flag_json
    regex := args.flag_regex
    reverse := args.flag_reverse
    search_body := args.flag_search_body
    yes := args.flag_yes }

/-- Modelled from the spec: extract_status (in utils, absent from src in
this vintage) maps the three mutually exclusive status flags to an optional
status filter value. -/
def extract_status (noneF started urgent : Bool) : Option Status :=
  if noneF then some Status.Blank
  else if started then some Status.Started
  else if urgent then some Status.Urgent
  else none

/-! ## Note CRUD (src/src/theca/profile.rs) -/

/-- Id of the last note in storage order, 0 when there are none; the value
add_note starts from. -/
def lastId (notes : List Item) : Nat :=
  match notes.getLast? with
  | some n => n.id
  | none => 0

/-- Embedding of Profile::add_note (src/src/theca/profile.rs lines 254-296):
strip newlines from the title, pick the body from piped input, the literal
argument or the external editor (empty when not attached to a terminal),
allocate id last+1, stamp the clock and append. -/
def add_note (env : Env) (p : Profile) (title : String) (body : List String)
    (status : Option Status) (use_stdin use_editor : Bool) : Profile :=
  let title := stripNL title
  let bodyText :=
    if use_stdin then env.stdin
    else if use_editor = false then
      match body with
      | [] => ""
      | b :: _ => b
    else if env.tty then env.editor ""
    else ""
  let new_id := lastId p.notes
  { p with
    notes := p.notes ++
      [{ id := new_id + 1, title := title, status := status.getD Status.Blank,
         body := bodyText, last_touched := env.now }] }

/-- Index of the first element satisfying the predicate, translating the
Rust iterator position combinator. -/
def findIndex (pred : Item → Bool) : List Item → Option Nat
  | [] => none
  | a :: t => if pred a then some 0 else (findIndex pred t).map (fun i => i + 1)

/-- One iteration of Profile::delete_note: position of the first note with
the id, removal when found, and whether a deletion was reported. -/
def delete_step (notes : List Item) (nid : Nat) : List Item × Bool :=
  match findIndex (fun n => n.id == nid) notes with
  | some e => (notes.eraseIdx e, true)
  | none => (notes, false)

/-- Embedding of Profile::delete_note (src/src/theca/profile.rs lines
299-312): each id in the batch is processed in order; the Bool list records
the per-id deleted/absent report lines. -/
def delete_note (notes : List Item) (ids : List Nat) : List Item × List Bool :=
  ids.foldl
    (fun acc nid =>
      let r := delete_step acc.1 nid
      (r.1, acc.2 ++ [r.2]))
    (notes, [])

/-- Apply an update to the note at an index, when in bounds. -/
def updateAt (l : List Item) (i : Nat) (f : Item → Item) : List Item :=
  match l.get? i with
  | some a => l.set i (f a)
  | none => l

/-- Title stage of Profile::edit_note (lines 331-346): a nonempty new title
replaces the stored one after newline stripping, except that the sentinel
"-" with piped-input mode not already active instead writes the piped input
into the body. -/
def editTitleStage (env : Env) (notes : List Item) (item_pos : Nat) (title : String)
    (use_stdin : Bool) : List Item :=
  if title ≠ "" then
    if stripNL title = "-" then
      if use_stdin = false then
        updateAt notes item_pos (fun it => { it with body := env.stdin })
      else
        updateAt notes item_pos (fun it => { it with title := stripNL title })
    else
      updateAt notes item_pos (fun it => { it with title := stripNL title })
  else notes

/-- Body stage of Profile::edit_note (lines 349-381): when a body change was
requested, the new body comes from piped input, from the external editor
(after the encrypted-profile warning prompt; unchanged when not attached to
a terminal), or from the literal argument. -/
def editBodyValue (env : Env) (flags : BoolFlags) (curBody : String) (body : List String)
    (use_stdin : Bool) : Except Err (Option String) :=
  if body ≠ [] ∨ flags.editor = true ∨ use_stdin = true then
    if use_stdin then .ok (some env.stdin)
    else if flags.editor then
      if env.tty then
        if flags.encrypted = true ∧ flags.yes = false ∧
            env.confirm Prompt.encryptedEditWarning = false then
          .error .userAborted
        else
          let nb := env.editor curBody
          .ok (some (if curBody ≠ nb then nb else curBody))
      else .ok (some curBody)
    else
      match body with
      | [] => .ok (some "")
      | b :: _ => .ok (some b)
  else .ok none

/-- Embedding of Profile::edit_note (src/src/theca/profile.rs lines 315-387),
mirroring the sequential field mutations of the source: the title stage
(with the "-" sentinel), the unconditional status reset, the body stage and
the final last_touched restamp. -/
def edit_note (env : Env) (p : Profile) (id : Nat) (title : String)
    (body : List String) (status : Option Status) (use_stdin : Bool)
    (flags : BoolFlags) : Except Err Profile :=
  match findIndex (fun n => n.id == id) p.notes with
  | none => .error (.noteNotFound id)
  | some item_pos =>
    let notes1 := editTitleStage env p.notes item_pos title use_stdin
    -- status stage (always reset, defaulting to Blank)
    let notes2 := updateAt notes1 item_pos (fun it => { it with status := status.getD Status.Blank })
    let curBody := ((notes2.get? item_pos).map Item.body).getD ""
    match editBodyValue env flags curBody body use_stdin with
    | .error e => .error e
    | .ok newBody =>
      let notes3 :=
        match newBody with
        | some b => updateAt notes2 item_pos (fun it => { it with body := b })
        | none => notes2
      let notes4 := updateAt notes3 item_pos (fun it => { it with last_touched := env.now })
      .ok { p with notes := notes4 }

/-- Embedding of Profile::clear (src/src/theca/profile.rs lines 109-118). -/
def clear (env : Env) (p : Profile) (yes : Bool) : Except Err Profile :=
  if yes = false ∧ env.confirm Prompt.clearAll = false then .error .userAborted
  else .ok { p with notes := [] }

/-! ## Profile construction (Profile::from_scratch, from_existing_profile,
Profile::new; src/src/theca/profile.rs lines 36-106) -/

/-- Embedding of Profile::from_scratch: ensure the profile folder exists,
prompting for its creation unless pre-authorized, and return an empty
profile with fingerprint 0. -/
def from_scratch (env : Env) (w : World) (profile_folder : String)
    (encrypted yes : Bool) : Except Err ((Profile × Nat) × World) :=
  if w.dirs.contains profile_folder then
    .ok ((⟨encrypted, []⟩, 0), w)
  else if yes = false ∧ env.confirm (Prompt.createDir profile_folder) = false then
    .error .userAborted
  else
    .ok ((⟨encrypted, []⟩, 0), { w with dirs := profile_folder :: w.dirs })

/-- Embedding of Profile::from_existing_profile: read the profile file,
decrypt it when the encrypted flag is set (failing when the key or the
stored form does not match), and return it with the fingerprint of the file
as read. -/
def from_existing (env : Env) (w : World) (profile_name profile_folder key : String)
    (encrypted : Bool) : Except Err (Profile × Nat) :=
  let path := profilePath profile_folder profile_name
  match diskGet w.disk path with
  | none => .error (.profileNotFound path)
  | some f =>
    if encrypted then
      match f.enc with
      | some k =>
        if k = password_to_key key then .ok (f.prof, env.fpOf f)
        else .error (.decryptionError path)
      | none => .error (.decryptionError path)
    else
      match f.enc with
      | none => .ok (f.prof, env.fpOf f)
      | some _ => .error (.malformedProfile path)

/-- Embedding of Profile::new: dispatch between from_scratch and
from_existing_profile. -/
def Profile.new (env : Env) (w : World) (profile_name profile_folder key : String)
    (new_profile encrypted yes : Bool) : Except Err ((Profile × Nat) × World) :=
  if new_profile then from_scratch env w profile_folder encrypted yes
  else (from_existing env w profile_name profile_folder key encrypted).map (fun r => (r, w))

/-! ## Saving, the merge protocol, transfer and command dispatch
(Profile::save_to_file, Profile::transfer_note in src/src/theca/profile.rs;
parse_cmds in src/src/theca/lib.rs)

These are mutually recursive in the source (save_to_file re-enters
parse_cmds for the merge replay, parse_cmds saves and transfers, transfer
saves the destination, import re-enters parse_cmds), so the embedding
threads an explicit fuel parameter; every mutual call decreases it. -/

/-- The plain write path of save_to_file: serialize, encrypt when the
profile is encrypted, and overwrite the file at the path. -/
def write_profile (w : World) (p : Profile) (args : Args) (path : String) : World :=
  let encPart := if p.encrypted then some (password_to_key args.flag_key) else none
  { w with disk := diskPut w.disk path ⟨p, encPart⟩ }

/-- Reconstruction of the pending command arguments inside the merge branch
of save_to_file (lines 150-157): when the original operation used the
external editor, disable the editor and seed flag_body[0] with the last
note body of the profile being saved (the stale in-memory profile). -/
def mergeNewArgs (p : Profile) (args : Args) : Except Err Args :=
  if args.flag_editor then
    (listSet0 args.flag_body
        (match p.notes.getLast? with
         | some n => n.body
         | none => "")).map
      (fun fb => { args with flag_editor := false, flag_body := fb })
  else .ok args

mutual

/-- Embedding of Profile::save_to_file (src/src/theca/profile.rs lines
122-194): resolve the target path, require confirmation before overwriting
an existing file on a new-profile save, run the optimistic-concurrency
fingerprint check when the expected fingerprint is nonzero (prompting and
replaying the pending command on divergence), and otherwise write. -/
def save_to_file (fuel : Nat) (env : Env) (w : World) (p : Profile) (args : Args)
    (fingerprint : Nat) : Except Err World :=
  match fuel with
  | 0 => .error .outOfFuel
  | fuel + 1 =>
    match (if args.cmd_new_profile then listGet0 args.arg_name else .ok args.flag_profile) with
    | .error e => .error e
    | .ok fname =>
      let path := profilePath args.flag_profile_folder fname
      if args.cmd_new_profile = true ∧ (diskGet w.disk path).isSome ∧ args.flag_yes = false ∧
          env.confirm (Prompt.overwriteProfile path) = false then
        .error .userAborted
      else if 0 < fingerprint then
        match diskGet w.disk path with
        | none => .error (.profileNotFound path)
        | some curFile =>
          if env.fpOf curFile ≠ fingerprint ∧ args.flag_yes = false then
            if env.confirm (Prompt.merge args.flag_profile) = false then
              .error .userAborted
            else
              match mergeNewArgs p args with
              | .error e => .error e
              | .ok new_args =>
                match Profile.new env w new_args.flag_profile new_args.flag_profile_folder
                    new_args.flag_key new_args.cmd_new_profile new_args.flag_encrypted
                    new_args.flag_yes with
                | .error e => .error e
                | .ok ((changed_profile, changed_fp), w1) =>
                  match parse_cmds fuel env w1 changed_profile new_args changed_fp with
                  | .error e => .error e
                  | .ok (w2, p2, args2) => save_to_file fuel env w2 p2 args2 0
          else
            .ok (write_profile w p args path)
      else
        .ok (write_profile w p args path)

/-- Embedding of Profile::transfer_note (src/src/theca/profile.rs lines
198-251): refuse self-transfer, load the destination profile, copy the note
through add_note (status and body preserved), remove the original only
after the copy, and persist the destination. -/
def transfer_note (fuel : Nat) (env : Env) (w : World) (p : Profile) (args : Args) :
    Except Err (World × Profile) :=
  match fuel with
  | 0 => .error .outOfFuel
  | fuel + 1 =>
    match listGet0 args.arg_name with
    | .error e => .error e
    | .ok destName =>
      if args.flag_profile = destName then .error (.selfTransfer destName)
      else
        let trans_args := { args with flag_profile := destName }
        match Profile.new env w destName args.flag_profile_folder args.flag_key
            args.cmd_new_profile args.flag_encrypted args.flag_yes with
        | .error e => .error e
        | .ok ((trans_profile, trans_fp), w1) =>
          match listGet0 args.arg_id with
          | .error e => .error e
          | .ok nid =>
            match p.notes.find? (fun n => n.id == nid) with
            | none => .error (.transferFailed nid)
            | some n =>
              let trans_profile :=
                add_note env trans_profile n.title [n.body] (some n.status) false false
              match findIndex (fun m => m.id == nid) p.notes with
              | none => .error (.transferIncomplete nid)
              | some e =>
                match save_to_file fuel env w1 trans_profile trans_args trans_fp with
                | .error err => .error err
                | .ok w2 => .ok (w2, { p with notes := p.notes.eraseIdx e })

/-- Embedding of parse_cmds (src/src/theca/lib.rs lines 170-287): run the
requested mutating commands in source order and save, or dispatch to the
display-only branches (view, search, info, import, list); import re-enters
parse_cmds as a reverse transfer.  The display-only branches print and are
modelled as no-ops up to their data-dependent failures. -/
def parse_cmds (fuel : Nat) (env : Env) (w : World) (p : Profile) (args : Args)
    (profile_fingerprint : Nat) : Except Err (World × Profile × Args) :=
  match fuel with
  | 0 => .error .outOfFuel
  | fuel + 1 =>
    let status := extract_status args.flag_none args.flag_started args.flag_urgent
    let flags := BoolFlags.from_args args
    if args.cmd_add = true ∨ args.cmd_edit = true ∨ args.cmd_encrypt_profile = true ∨
        args.cmd_del = true ∨ args.cmd_decrypt_profile = true ∨ args.cmd_transfer = true ∨
        args.cmd_clear = true ∨ args.cmd_new_profile = true then
      -- add
      let p := if args.cmd_add then
          add_note env p args.arg_title args.flag_body status args.cmd__ args.flag_editor
        else p
      -- edit
      match (if args.cmd_edit then
          match listGet0 args.arg_id with
          | .error e => .error e
          | .ok id0 => edit_note env p id0 args.arg_title args.flag_body status args.cmd__ flags
        else .ok p : Except Err Profile) with
      | .error e => .error e
      | .ok p =>
        -- delete
        let p := if args.cmd_del then { p with notes := (delete_note p.notes args.arg_id).1 } else p
        -- transfer
        match (if args.cmd_transfer then transfer_note fuel env w p args else .ok (w, p)) with
        | .error e => .error e
        | .ok (w, p) =>
          -- clear
          match (if args.cmd_clear then clear env p args.flag_yes else .ok p) with
          | .error e => .error e
          | .ok p =>
            -- decrypt profile
            let p := if args.cmd_decrypt_profile then { p with encrypted := false } else p
            -- encrypt profile
            let pa :=
              if args.cmd_encrypt_profile then
                let newKey := if args.flag_new_key = "" then env.password else args.flag_new_key
                ({ p with encrypted := true },
                 { args with flag_new_key := newKey, flag_encrypted := true, flag_key := newKey })
              else (p, args)
            let p := pa.1
            let args := pa.2
            -- new profile: default name
            let args :=
              if args.cmd_new_profile = true ∧ args.arg_name = [] then
                { args with arg_name := ["default"] }
              else args
            match save_to_file fuel env w p args profile_fingerprint with
            | .error e => .error e
            | .ok w => .ok (w, p, args)
    else if args.arg_id ≠ [] then
      -- view note: print only, fails when the note is absent
      match listGet0 args.arg_id with
      | .error e => .error e
      | .ok id0 =>
        if (p.notes.find? (fun n => n.id == id0)).isSome then .ok (w, p, args)
        else .error (.noteNotFound id0)
    else if args.cmd_search then
      -- search: print only (pattern compilation not modelled)
      .ok (w, p, args)
    else if args.cmd_info then
      -- stats: print only, fails on an empty profile
      if p.notes = [] then .error .statsEmpty else .ok (w, p, args)
    else if args.cmd_import then
      match listGet0 args.arg_name with
      | .error e => .error e
      | .ok name0 =>
        let from_args :=
          { args with
            cmd_transfer := args.cmd_import
            cmd_import := false
            flag_profile := name0
            arg_name := args.flag_profile :: args.arg_name.tail }
        match Profile.new env w from_args.flag_profile from_args.flag_profile_folder
            from_args.flag_key from_args.cmd_new_profile from_args.flag_encrypted
            from_args.flag_yes with
        | .error e => .error e
        | .ok ((from_profile, from_fp), w1) =>
          match parse_cmds fuel env w1 from_profile from_args from_fp with
          | .error e => .error e
          | .ok (w2, _, _) => .ok (w2, p, args)
    else if args.cmd_list_profiles then
      .ok (w, p, args)
    else
      -- list notes: print only
      .ok (w, p, args)

end

/-! ## Derived notions used by the stated properties -/

/-- The note ids are strictly increasing in storage order. -/
def idsSorted (notes : List Item) : Prop :=
  List.Pairwise (· < ·) (notes.map Item.id)

instance (notes : List Item) : Decidable (idsSorted notes) :=
  inferInstanceAs (Decidable (List.Pairwise _ _))

/-- Greatest id present in a note list (0 when empty). -/
def maxId (notes : List Item) : Nat :=
  (notes.map Item.id).foldr max 0

/-! ## Concrete fixtures for witnesses and counterexamples -/

/-- A concrete collaborator environment: all prompts answered yes, empty
piped input, an identity editor, no terminal, and the note count of the
stored profile as the fingerprint digest. -/
def env0 : Env :=
  { confirm := fun _ => true
    stdin := ""
    editor := fun s => s
    tty := false
    password := ""
    fpOf := fun f => f.prof.notes.length
    now := "T" }

/-- A concrete argument record with no command selected and all flags off. -/
def argsBase : Args :=
  { cmd_add := false
    cmd_clear := false
    cmd_del := false
    cmd_decrypt_profile := false
    cmd_edit := false
    cmd_encrypt_profile := false
    cmd_import := false
    cmd_info := false
    cmd_list_profiles := false
    cmd_new_profile := false
    cmd_search := false
    cmd_transfer := false
    cmd__ := false
    arg_id := []
    arg_name := []
    arg_pattern := ""
    arg_title := ""
    flag_body := []
    flag_condensed := false
    flag_datesort := false
    flag_editor := false
    flag_encrypted := false
    flag_json := false
    flag_key := ""
    flag_limit := 0
    flag_new_key := ""
    flag_none := false
    flag_profile := "p"
    flag_profile_folder := "f"
    flag_regex := false
    flag_reverse := false
    flag_search_body := false
    flag_started := false
    flag_urgent := false
    flag_version := false
    flag_yes := false }

/-- A concrete flag bundle with everything off. -/
def flagsBase : BoolFlags :=
  { condensed := false
    datesort := false
    editor := false
    encrypted := false
    json := false
    regex := false
    reverse := false
    search_body := false
    yes := false }

/-- Target path of save_to_file in the ordinary (not new-profile) case. -/
def savePath (args : Args) : String :=
  profilePath args.flag_profile_folder args.flag_profile

/-- The conflict-free evaluation of save_to_file: resolve the name, run the
overwrite confirmation for a new-profile save, and write; the fingerprint
conflict block is absent.  save_to_file with expected fingerprint 0 is
proved to coincide with this function. -/
def save_plain_fn (env : Env) (w : World) (p : Profile) (args : Args) : Except Err World :=
  match (if args.cmd_new_profile then listGet0 args.arg_name else .ok args.flag_profile) with
  | .error e => .error e
  | .ok fname =>
    let path := profilePath args.flag_profile_folder fname
    if args.cmd_new_profile = true ∧ (diskGet w.disk path).isSome ∧ args.flag_yes = false ∧
        env.confirm (Prompt.overwriteProfile path) = false then
      .error .userAborted
    else
      .ok (write_profile w p args path)

/-- Stale in-memory profile fixture for the merge scenarios. -/
def pStale : Profile := ⟨false, [⟨1, "a", Status.Blank, "S", "T"⟩]⟩

/-- Externally modified on-disk profile fixture for the merge scenarios. -/
def pFresh : Profile :=
  ⟨false, [⟨1, "x", Status.Blank, "F1", "T"⟩, ⟨2, "y", Status.Blank, "F", "T"⟩]⟩

/-- Concrete add-command arguments. -/
def argsAdd : Args := { argsBase with cmd_add := true, arg_title := "t", flag_body := ["B"] }

/-- World holding the externally modified profile file for the merge
scenarios. -/
def wMerge : World := { disk := [("f/p.json", ⟨pFresh, none⟩)], dirs := ["f"] }

/-- Concrete transfer-command arguments (note 1 from profile p to q). -/
def argsTransfer : Args := { argsBase with cmd_transfer := true, arg_name := ["q"], arg_id := [1] }

/-- World holding an empty destination profile q. -/
def wTransfer : World := { disk := [("f/q.json", ⟨⟨false, []⟩, none⟩)], dirs := ["f"] }

/-- Source profile fixture for the transfer scenarios. -/
def pTransfer : Profile := ⟨false, [⟨1, "x", Status.Blank, "B", "T"⟩]⟩

end Theca

/-! ## Helper lemmas -/

namespace Theca

lemma padTrunc_length (s : String) (w : Nat) : (padTrunc s w).length = w := by
  show ((s.data.take w ++ List.replicate (w - (s.data.take w).length) ' ') : List Char).length = w
  have h : (s.data.take w).length ≤ w := by
    rw [List.length_take]; omega
  simp only [List.length_append, List.length_replicate]
  omega

lemma padTrunc_of_long (s : String) (w : Nat) (h : w ≤ s.length) :
    padTrunc s w = String.mk (s.data.take w) := by
  have hlen : (s.data.take w).length = w := by
    rw [List.length_take]
    have : s.length = s.data.length := rfl
    omega
  show String.mk (s.data.take w ++ List.replicate (w - (s.data.take w).length) ' ') =
    String.mk (s.data.take w)
  rw [hlen, Nat.sub_self, List.replicate_zero, List.append_nil]

lemma getLast?_mem {α : Type} : ∀ {l : List α} {a : α}, l.getLast? = some a → a ∈ l := by
  intro l
  induction l with
  | nil => intro a h; simp at h
  | cons x t ih =>
    intro a h
    cases t with
    | nil => simp at h; simp [h]
    | cons y u =>
      rw [List.getLast?_cons_cons] at h
      exact List.mem_cons_of_mem x (ih h)

lemma le_getLast_of_pairwise :
    ∀ {l : List Nat}, List.Pairwise (· < ·) l → ∀ x ∈ l, x ≤ l.getLast?.getD 0 := by
  intro l
  induction l with
  | nil => simp
  | cons a t ih =>
    intro hp x hx
    rcases List.pairwise_cons.mp hp with ⟨ha, ht⟩
    cases t with
    | nil =>
      simp at hx
      simp [hx, List.getLast?]
    | cons b u =>
      rw [List.getLast?_cons_cons]
      rcases List.mem_cons.mp hx with hxa | hxt
      · subst hxa
        have hb : b ≤ (b :: u).getLast?.getD 0 := ih ht b (List.mem_cons_self b u)
        have hab : x < b := ha b (List.mem_cons_self b u)
        omega
      · exact ih ht x hxt

lemma foldr_max_of_pairwise :
    ∀ {l : List Nat}, List.Pairwise (· < ·) l → l.foldr max 0 = l.getLast?.getD 0 := by
  intro l
  induction l with
  | nil => simp
  | cons a t ih =>
    intro hp
    rcases List.pairwise_cons.mp hp with ⟨ha, ht⟩
    cases t with
    | nil => simp [List.getLast?]
    | cons b u =>
      rw [List.getLast?_cons_cons, List.foldr_cons, ih ht]
      have hb : b ≤ (b :: u).getLast?.getD 0 := le_getLast_of_pairwise ht b (List.mem_cons_self b u)
      have hab : a < b := ha b (List.mem_cons_self b u)
      omega

lemma lastId_eq (notes : List Item) : lastId notes = (notes.map Item.id).getLast?.getD 0 := by
  unfold lastId
  rw [List.getLast?_map]
  cases notes.getLast? <;> rfl

lemma maxId_eq_lastId {notes : List Item} (h : idsSorted notes) : maxId notes = lastId notes := by
  unfold maxId
  rw [lastId_eq, foldr_max_of_pairwise h]

lemma le_lastId {notes : List Item} (h : idsSorted notes) :
    ∀ a ∈ notes, a.id ≤ lastId notes := by
  intro a ha
  rw [lastId_eq]
  exact le_getLast_of_pairwise h a.id (List.mem_map_of_mem Item.id ha)

lemma add_note_notes (env : Env) (p : Profile) (title : String) (body : List String)
    (status : Option Status) (us ue : Bool) :
    (add_note env p title body status us ue).notes =
      p.notes ++
        [{ id := lastId p.notes + 1, title := stripNL title,
           status := status.getD Status.Blank,
           body :=
             if us then env.stdin
             else if ue = false then
               match body with
               | [] => ""
               | b :: _ => b
             else if env.tty then env.editor ""
             else "",
           last_touched := env.now }] := rfl

lemma lastId_append_singleton (notes : List Item) (x : Item) :
    lastId (notes ++ [x]) = x.id := by
  unfold lastId
  rw [List.getLast?_concat]

lemma findIndex_eq_none_of_not_mem {notes : List Item} {nid : Nat}
    (h : nid ∉ notes.map Item.id) :
    findIndex (fun n => n.id == nid) notes = none := by
  induction notes with
  | nil => rfl
  | cons a t ih =>
    simp only [List.map_cons, List.mem_cons] at h
    push_neg at h
    unfold findIndex
    have ha : (a.id == nid) = false := by
      simp [h.1.symm]
    rw [ha]
    simp [ih h.2]

end Theca

namespace Theca

lemma delete_step_absent {notes : List Item} {nid : Nat} (h : nid ∉ notes.map Item.id) :
    delete_step notes nid = (notes, false) := by
  unfold delete_step
  rw [findIndex_eq_none_of_not_mem h]

lemma delete_step_present {notes : List Item} {nid : Nat}
    (hnd : (notes.map Item.id).Nodup) (h : nid ∈ notes.map Item.id) :
    (delete_step notes nid).1 = notes.filter (fun n => !(n.id == nid)) ∧
      (delete_step notes nid).2 = true := by
  induction notes with
  | nil => simp at h
  | cons a t ih =>
    simp only [List.map_cons, List.nodup_cons] at hnd
    by_cases ha : a.id = nid
    · have hrest : ∀ n ∈ t, (!(n.id == nid)) = true := by
        intro n hn
        have hmem : n.id ∈ t.map Item.id := List.mem_map_of_mem Item.id hn
        have hne : n.id ≠ nid := by
          intro hc
          rw [hc, ← ha] at hmem
          exact hnd.1 hmem
        simp [hne]
      unfold delete_step findIndex
      have hba : (a.id == nid) = true := by simp [ha]
      rw [hba]
      simp only [if_true, List.eraseIdx_cons_zero, List.filter_cons]
      have hfa : (!(a.id == nid)) = false := by simp [ha]
      rw [hfa]
      exact ⟨(List.filter_eq_self.mpr hrest).symm, trivial⟩
    · have hmem : nid ∈ t.map Item.id := by
        rcases List.mem_cons.mp h with h1 | h2
        · exact absurd h1.symm ha
        · exact h2
      have hih := ih hnd.2 hmem
      unfold delete_step at hih ⊢
      unfold findIndex
      have hba : (a.id == nid) = false := by simp [ha]
      rw [hba]
      simp only [Bool.false_eq_true, if_false]
      cases hfi : findIndex (fun n => n.id == nid) t with
      | none =>
        rw [hfi] at hih
        simp at hih
      | some i =>
        rw [hfi] at hih
        simp only [Option.map_some', List.eraseIdx_cons_succ, List.filter_cons]
        have hfa : (!(a.id == nid)) = true := by simp [ha]
        rw [hfa]
        simp only [if_true]
        exact ⟨congrArg (List.cons a) hih.1, trivial⟩

end Theca

namespace Theca

lemma delete_note_foldl :
    ∀ (ids : List Nat) (notes : List Item) (acc : List Bool),
      (List.foldl (fun acc nid => ((delete_step acc.1 nid).1, acc.2 ++ [(delete_step acc.1 nid).2]))
          (notes, acc) ids).1 =
        ids.foldl (fun ns i => (delete_step ns i).1) notes := by
  intro ids
  induction ids with
  | nil => intro notes acc; rfl
  | cons i t ih => intro notes acc; exact ih _ _

lemma delete_note_fst (notes : List Item) (ids : List Nat) :
    (delete_note notes ids).1 = ids.foldl (fun ns i => (delete_step ns i).1) notes := by
  unfold delete_note
  exact delete_note_foldl ids notes []

lemma delete_note_reports :
    ∀ (ids : List Nat) (notes : List Item) (acc : List Bool),
      (List.foldl (fun acc nid => ((delete_step acc.1 nid).1, acc.2 ++ [(delete_step acc.1 nid).2]))
          (notes, acc) ids).2.length = acc.length + ids.length := by
  intro ids
  induction ids with
  | nil => intro notes acc; rfl
  | cons i t ih =>
    intro notes acc
    rw [List.foldl_cons, ih]
    simp
    omega

/-- The claim C5 theorem: delete never fails (it is a total function on the
note list); an absent id leaves the notes unchanged and reports absence; a
present id (under the unique-id invariant) removes exactly the notes
carrying that id and reports success; and a batch processes every id in
order, the outcome of later ids being unaffected by earlier absences. -/
theorem c5_delete_batch (notes : List Item) (ids1 ids2 : List Nat) (nid : Nat) :
    (nid ∉ notes.map Item.id → delete_step notes nid = (notes, false)) ∧
    ((notes.map Item.id).Nodup → nid ∈ notes.map Item.id →
      (delete_step notes nid).1 = notes.filter (fun n => !(n.id == nid)) ∧
        (delete_step notes nid).2 = true) ∧
    (delete_note notes ids1).2.length = ids1.length ∧
    (delete_note notes (ids1 ++ ids2)).1 = (delete_note (delete_note notes ids1).1 ids2).1 := by
  refine ⟨fun h => delete_step_absent h, fun hnd h => delete_step_present hnd h, ?_, ?_⟩
  · unfold delete_note
    rw [delete_note_reports]
    simp
  · rw [delete_note_fst, delete_note_fst, delete_note_fst, List.foldl_append]

theorem c5_delete_batch_witness :
    (delete_step [⟨2, "a", Status.Blank, "", "T"⟩] 5 = ([⟨2, "a", Status.Blank, "", "T"⟩], false)) ∧
    ((delete_step [⟨2, "a", Status.Blank, "", "T"⟩] 2).1 = [] ∧
      (delete_step [⟨2, "a", Status.Blank, "", "T"⟩] 2).2 = true) ∧
    (delete_note [⟨2, "a", Status.Blank, "", "T"⟩] [5, 2]).2.length = 2 ∧
    (delete_note [⟨2, "a", Status.Blank, "", "T"⟩] ([5] ++ [2])).1 =
      (delete_note (delete_note [⟨2, "a", Status.Blank, "", "T"⟩] [5]).1 [2]).1 := by
  have h := c5_delete_batch [⟨2, "a", Status.Blank, "", "T"⟩] [5, 2] [2] 5
  have h2 := c5_delete_batch [⟨2, "a", Status.Blank, "", "T"⟩] [5] [2] 2
  refine ⟨h.1 (by decide), ?_, ?_, h2.2.2.2⟩
  · have := h2.2.1 (by decide) (by decide)
    exact ⟨by rw [this.1]; rfl, this.2⟩
  · exact h.2.2.1
end Theca

namespace Theca

lemma updateAt_nil (i : Nat) (f : Item → Item) : updateAt [] i f = [] := rfl

lemma updateAt_cons_zero (a : Item) (t : List Item) (f : Item → Item) :
    updateAt (a :: t) 0 f = f a :: t := rfl

lemma updateAt_cons_succ (a : Item) (t : List Item) (i : Nat) (f : Item → Item) :
    updateAt (a :: t) (i + 1) f = a :: updateAt t i f := by
  unfold updateAt
  show (match t.get? i with
        | some b => (a :: t).set (i + 1) (f b)
        | none => a :: t) = _
  cases h : t.get? i with
  | none => rfl
  | some b => rfl

lemma updateAt_map_of_preserve {β : Type} (g : Item → β) (f : Item → Item)
    (hf : ∀ it, g (f it) = g it) :
    ∀ (l : List Item) (i : Nat), (updateAt l i f).map g = l.map g := by
  intro l
  induction l with
  | nil => intro i; rfl
  | cons a t ih =>
    intro i
    cases i with
    | zero => rw [updateAt_cons_zero]; simp [hf]
    | succ j => rw [updateAt_cons_succ]; simp [ih j]

lemma updateAt_get?_self (f : Item → Item) :
    ∀ (l : List Item) (i : Nat), (updateAt l i f).get? i = (l.get? i).map f := by
  intro l
  induction l with
  | nil => intro i; rfl
  | cons a t ih =>
    intro i
    cases i with
    | zero => rw [updateAt_cons_zero]; rfl
    | succ j =>
      rw [updateAt_cons_succ]
      show (updateAt t j f).get? j = (t.get? j).map f
      exact ih j

lemma findIndex_get? :
    ∀ {l : List Item} {pred : Item → Bool} {i : Nat}, findIndex pred l = some i →
      ∃ a, l.get? i = some a ∧ pred a = true := by
  intro l
  induction l with
  | nil => intro pred i h; simp [findIndex] at h
  | cons a t ih =>
    intro pred i h
    unfold findIndex at h
    by_cases hp : pred a
    · rw [if_pos hp] at h
      cases h
      exact ⟨a, rfl, hp⟩
    · rw [if_neg hp] at h
      cases hfi : findIndex pred t with
      | none => rw [hfi] at h; simp at h
      | some j =>
        rw [hfi] at h
        simp at h
        rcases ih hfi with ⟨b, hb, hpb⟩
        refine ⟨b, ?_, hpb⟩
        rw [← h]
        exact hb

end Theca

namespace Theca

/-- The claim C6 theorem (amended): when piped-input mode is not already
active (use_stdin false), a new title equal to "-" after newline stripping
acts as a sentinel: the note title is left unchanged and the piped standard
input is written into the note body (shown here in the absence of a further
explicit body argument or editor flag, either of which would subsequently
overwrite that body); when piped-input mode is already active the "-" is
instead taken literally as the new title, as the counterexample shows. -/
theorem c6_dash_title_reads_stdin (env : Env) (p : Profile) (id : Nat) (title : String)
    (status : Option Status) (flags : BoolFlags) (pos : Nat)
    (h_pos : findIndex (fun nn => nn.id == id) p.notes = some pos)
    (h_dash : stripNL title = "-") (h_ed : flags.editor = false) :
    ∃ p2, edit_note env p id title [] status false flags = .ok p2 ∧
      p2.notes.map Item.title = p.notes.map Item.title ∧
      (p2.notes.get? pos).map Item.body = some env.stdin := by
  have htne : title ≠ "" := by
    intro hc
    rw [hc] at h_dash
    exact absurd h_dash (by decide)
  have hres : edit_note env p id title [] status false flags =
      .ok { p with notes :=
        (updateAt (updateAt (updateAt p.notes pos (fun it => { it with body := env.stdin }))
            pos (fun it => { it with status := status.getD Status.Blank }))
          pos (fun it => { it with last_touched := env.now })) } := by
    simp only [edit_note, h_pos]
    simp [editTitleStage, editBodyValue, htne, h_dash, h_ed]
  refine ⟨_, hres, ?_, ?_⟩
  · simp only [updateAt_map_of_preserve Item.title
        (fun it => { it with last_touched := env.now }) (fun it => rfl),
      updateAt_map_of_preserve Item.title
        (fun it => { it with status := status.getD Status.Blank }) (fun it => rfl),
      updateAt_map_of_preserve Item.title
        (fun it => { it with body := env.stdin }) (fun it => rfl)]
  · simp only [updateAt_get?_self]
    rcases findIndex_get? h_pos with ⟨a, ha, _⟩
    rw [ha]
    rfl

theorem c6_dash_title_reads_stdin_witness :
    ∃ p2, edit_note env0 ⟨false, [⟨1, "t", Status.Blank, "b", "T"⟩]⟩ 1 "-" [] none false
        flagsBase = .ok p2 ∧
      p2.notes.map Item.title = ([⟨1, "t", Status.Blank, "b", "T"⟩] : List Item).map Item.title ∧
      (p2.notes.get? 0).map Item.body = some env0.stdin :=
  c6_dash_title_reads_stdin env0 ⟨false, [⟨1, "t", Status.Blank, "b", "T"⟩]⟩ 1 "-" none
    flagsBase 0 (by rfl) (by rfl) (by rfl)

/-- Counterexample to claim C6 as stated: with piped-input mode already
active (use_stdin true, the cmd__ form), a new title "-" does replace the
note title with the literal "-" instead of acting as the read-body-from-
stdin sentinel. -/
theorem c6_counterexample :
    edit_note env0 ⟨false, [⟨1, "t", Status.Blank, "b", "T"⟩]⟩ 1 "-" [] none true flagsBase =
      .ok ⟨false, [⟨1, "-", Status.Blank, "", "T"⟩]⟩ ∧
    ("-" : String) ≠ "t" := by
  refine ⟨rfl, by decide⟩

end Theca

namespace Theca

lemma idsSorted_add {p : Profile} (env : Env) (title : String) (body : List String)
    (status : Option Status) (us ue : Bool) (h : idsSorted p.notes) :
    idsSorted (add_note env p title body status us ue).notes := by
  unfold idsSorted at h ⊢
  rw [add_note_notes, List.map_append]
  rw [List.pairwise_append]
  refine ⟨h, by simp, ?_⟩
  intro a ha b hb
  simp only [List.map_cons, List.map_nil, List.mem_singleton] at hb
  subst hb
  rcases List.mem_map.mp ha with ⟨it, hit, rfl⟩
  have := le_lastId h it hit
  omega

lemma idsSorted_eraseIdx {notes : List Item} (i : Nat) (h : idsSorted notes) :
    idsSorted (notes.eraseIdx i) :=
  h.sublist ((List.eraseIdx_sublist notes i).map Item.id)

lemma idsSorted_delete_step {notes : List Item} (nid : Nat) (h : idsSorted notes) :
    idsSorted (delete_step notes nid).1 := by
  unfold delete_step
  cases hfi : findIndex (fun n => n.id == nid) notes with
  | none => exact h
  | some i => exact idsSorted_eraseIdx i h

lemma idsSorted_delete_note {notes : List Item} (ids : List Nat) (h : idsSorted notes) :
    idsSorted (delete_note notes ids).1 := by
  rw [delete_note_fst]
  induction ids generalizing notes with
  | nil => exact h
  | cons i t ih => exact ih (idsSorted_delete_step i h)

lemma map_id_updateAt_of (l : List Item) (i : Nat) (f : Item → Item)
    (hf : ∀ it, (f it).id = it.id) :
    (updateAt l i f).map Item.id = l.map Item.id :=
  updateAt_map_of_preserve Item.id f hf l i

lemma editTitleStage_map_id (env : Env) (notes : List Item) (pos : Nat) (title : String)
    (us : Bool) : (editTitleStage env notes pos title us).map Item.id = notes.map Item.id := by
  unfold editTitleStage
  split_ifs <;> simp [map_id_updateAt_of]

lemma edit_note_ok_map_id {env : Env} {p : Profile} {id : Nat} {title : String}
    {body : List String} {status : Option Status} {us : Bool} {flags : BoolFlags}
    {p2 : Profile} (h : edit_note env p id title body status us flags = .ok p2) :
    p2.notes.map Item.id = p.notes.map Item.id := by
  unfold edit_note at h
  cases hpos : findIndex (fun n => n.id == id) p.notes with
  | none => rw [hpos] at h; simp at h
  | some pos =>
    rw [hpos] at h
    simp only at h
    split at h
    · simp at h
    · rename_i newBody heq
      cases h
      cases newBody with
      | some b => simp [map_id_updateAt_of, editTitleStage_map_id]
      | none => simp [map_id_updateAt_of, editTitleStage_map_id]

lemma transfer_note_ok_shape {k : Nat} {env : Env} {w : World} {p : Profile} {args : Args}
    {r : World × Profile} (h : transfer_note k env w p args = .ok r) :
    ∃ e, r.2 = { p with notes := p.notes.eraseIdx e } := by
  cases k with
  | zero => simp [transfer_note] at h
  | succ k =>
    unfold transfer_note at h
    repeat' split at h
    all_goals (try (simp at h))
    all_goals (repeat' split at h)
    all_goals (try (simp at h))
    all_goals (cases h; exact ⟨_, rfl⟩)

/-- The claim C9 theorem: the strictly-increasing-ids storage invariant is
preserved by add_note, delete_note, edit_note (which never changes the id
sequence) and transfer_note (on the source profile), and under it the last
note carries the maximum id (justifying allocation from the last note) and
no two notes share an id. -/
theorem c9_ids_strictly_increasing :
    (∀ (env : Env) (p : Profile) (title : String) (body : List String)
        (status : Option Status) (us ue : Bool), idsSorted p.notes →
      idsSorted (add_note env p title body status us ue).notes) ∧
    (∀ (notes : List Item) (ids : List Nat), idsSorted notes →
      idsSorted (delete_note notes ids).1) ∧
    (∀ (env : Env) (p : Profile) (id : Nat) (title : String) (body : List String)
        (status : Option Status) (us : Bool) (flags : BoolFlags) (p2 : Profile),
      edit_note env p id title body status us flags = .ok p2 →
        p2.notes.map Item.id = p.notes.map Item.id ∧
        (idsSorted p.notes → idsSorted p2.notes)) ∧
    (∀ (k : Nat) (env : Env) (w : World) (p : Profile) (args : Args) (r : World × Profile),
      transfer_note k env w p args = .ok r → idsSorted p.notes → idsSorted r.2.notes) ∧
    (∀ notes : List Item, idsSorted notes →
      (∀ a ∈ notes, a.id ≤ lastId notes) ∧ (notes.map Item.id).Nodup) := by
  refine ⟨?_, ?_, ?_, ?_, ?_⟩
  · intro env p title body status us ue h
    exact idsSorted_add env title body status us ue h
  · intro notes ids h
    exact idsSorted_delete_note ids h
  · intro env p id title body status us flags p2 h
    have hmap := edit_note_ok_map_id h
    refine ⟨hmap, fun hs => ?_⟩
    unfold idsSorted at hs ⊢
    rw [hmap]
    exact hs
  · intro k env w p args r h hs
    rcases transfer_note_ok_shape h with ⟨e, he⟩
    rw [he]
    exact idsSorted_eraseIdx e hs
  · intro notes h
    exact ⟨le_lastId h, h.imp (fun hlt => Nat.ne_of_lt hlt)⟩

theorem c9_ids_strictly_increasing_witness :
    idsSorted (add_note env0 pFresh "t" [] none false false).notes ∧
    idsSorted (delete_note pFresh.notes [1]).1 ∧
    idsSorted (delete_note pFresh.notes [7]).1 ∧
    (∀ a ∈ pFresh.notes, a.id ≤ lastId pFresh.notes) ∧
    (pFresh.notes.map Item.id).Nodup := by
  refine ⟨c9_ids_strictly_increasing.1 env0 pFresh "t" [] none false false (by decide),
    c9_ids_strictly_increasing.2.1 pFresh.notes [1] (by decide),
    c9_ids_strictly_increasing.2.1 pFresh.notes [7] (by decide),
    (c9_ids_strictly_increasing.2.2.2.2 pFresh.notes (by decide)).1,
    (c9_ids_strictly_increasing.2.2.2.2 pFresh.notes (by decide)).2⟩

end Theca

namespace Theca

/-- The claim C7 theorem (amended): with truncation enabled and column width
greater than 3, every value longer than the width, including one only 1 to 3
characters over, renders as its first width-3 characters followed by the
3-character ellipsis, with total length exactly the width. -/
theorem c7_format_field_truncation (value : String) (width : Nat)
    (h3 : 3 < width) (hlen : width < value.length) :
    format_field value width true = String.mk (value.data.take (width - 3)) ++ "..." ∧
    (format_field value width true).length = width := by
  have hcond : value.length > width ∧ width > 3 ∧ (true : Bool) = true := ⟨hlen, h3, rfl⟩
  have heq : format_field value width true = padTrunc value (width - 3) ++ "..." := by
    unfold format_field
    rw [if_pos hcond]
  constructor
  · rw [heq, padTrunc_of_long value (width - 3) (by omega)]
  · rw [heq, String.length_append, padTrunc_length]
    have : ("..." : String).length = 3 := rfl
    omega

theorem c7_format_field_truncation_witness :
    3 < 10 ∧ 10 < ("abcdefghijklmn" : String).length ∧
    format_field "abcdefghijklmn" 10 true = String.mk ("abcdefghijklmn".data.take 7) ++ "..." ∧
    (format_field "abcdefghijklmn" 10 true).length = 10 :=
  ⟨by decide, by decide,
   c7_format_field_truncation "abcdefghijklmn" 10 (by decide) (by decide)⟩

/-- Counterexample to claim C7 as stated: the title "abcde" is only one
character longer than the column width 4, yet with truncation enabled it
renders as "a..." (truncated with the ellipsis, total length 4), not
untruncated. -/
theorem c7_counterexample :
    format_field "abcde" 4 true = "a..." ∧ ("a..." : String) ≠ "abcde" := by
  constructor
  · rfl
  · decide

/-- The claim C10 theorem: Status decoding is total over the declared
variant names; for every input string the decoder yields exactly one of
Blank, Started or Urgent, or rejects the name as unknown; in particular
the panic branch for an out-of-range variant index is never taken, since
no result is an unreachable-variant error. -/
theorem c10_status_decode_total (input : String) :
    Status.decode input = .ok Status.Blank ∨ Status.decode input = .ok Status.Started ∨
    Status.decode input = .ok Status.Urgent ∨
    Status.decode input = .error (.unknownVariant input) := by
  by_cases h1 : ("" : String) = input
  · simp [Status.decode, read_enum_variant, statusVariantNames, variantIndex, h1,
      statusFromVariantIdx]
  · by_cases h2 : ("Started" : String) = input
    · simp [Status.decode, read_enum_variant, statusVariantNames, variantIndex, h1, h2,
        statusFromVariantIdx]
    · by_cases h3 : ("Urgent" : String) = input
      · simp [Status.decode, read_enum_variant, statusVariantNames, variantIndex, h1, h2, h3,
          statusFromVariantIdx]
      · simp [Status.decode, read_enum_variant, statusVariantNames, variantIndex, h1, h2, h3,
          statusFromVariantIdx]

/-- The claim C4 theorem (amended): add_note appends exactly one note whose
id is the last stored id plus one, which under the maintained
strictly-increasing id invariant equals the maximum prior id plus one (1 on
an empty profile, since maxId of an empty profile is 0); the count grows by
exactly one.  Deleting the note carrying the greatest id does free that id
for reuse, as the separate counterexample shows. -/
theorem c4_add_allocates_max_plus_one (env : Env) (p : Profile) (title : String)
    (body : List String) (status : Option Status) (us ue : Bool) :
    (add_note env p title body status us ue).notes.length = p.notes.length + 1 ∧
    lastId (add_note env p title body status us ue).notes = lastId p.notes + 1 ∧
    (idsSorted p.notes →
      lastId (add_note env p title body status us ue).notes = maxId p.notes + 1) := by
  refine ⟨?_, ?_, ?_⟩
  · rw [add_note_notes]; simp
  · rw [add_note_notes, lastId_append_singleton]
  · intro h
    rw [add_note_notes, lastId_append_singleton, maxId_eq_lastId h]

theorem c4_add_allocates_max_plus_one_witness :
    idsSorted [⟨1, "a", Status.Blank, "", "T"⟩, ⟨4, "b", Status.Blank, "", "T"⟩] ∧
    (add_note env0 ⟨false, [⟨1, "a", Status.Blank, "", "T"⟩, ⟨4, "b", Status.Blank, "", "T"⟩]⟩
        "t" [] none false false).notes.length = 3 ∧
    lastId (add_note env0 ⟨false, [⟨1, "a", Status.Blank, "", "T"⟩, ⟨4, "b", Status.Blank, "", "T"⟩]⟩
        "t" [] none false false).notes =
      maxId [⟨1, "a", Status.Blank, "", "T"⟩, ⟨4, "b", Status.Blank, "", "T"⟩] + 1 :=
  ⟨by decide,
   (c4_add_allocates_max_plus_one env0
      ⟨false, [⟨1, "a", Status.Blank, "", "T"⟩, ⟨4, "b", Status.Blank, "", "T"⟩]⟩
      "t" [] none false false).1,
   (c4_add_allocates_max_plus_one env0
      ⟨false, [⟨1, "a", Status.Blank, "", "T"⟩, ⟨4, "b", Status.Blank, "", "T"⟩]⟩
      "t" [] none false false).2.2 (by decide)⟩

/-- Counterexample to claim C4 as stated: ids are reused after deletion.
Deleting the only note (id 1) and then adding a note allocates id 1 again. -/
theorem c4_counterexample :
    (delete_note [⟨1, "a", Status.Blank, "", "T"⟩] [1]).1 = [] ∧
    (add_note env0 ⟨false, (delete_note [⟨1, "a", Status.Blank, "", "T"⟩] [1]).1⟩
        "b" [] none false false).notes.map Item.id = [1] ∧
    ([⟨1, "a", Status.Blank, "", "T"⟩] : List Item).map Item.id = [1] := by
  refine ⟨?_, ?_, ?_⟩ <;> rfl

end Theca

namespace Theca

lemma diskPut_diskPut (d : Disk) (p : String) (a b : FsFile) :
    diskPut (diskPut d p a) p b = diskPut d p b := by
  induction d with
  | nil => simp [diskPut]
  | cons hd t ih =>
    obtain ⟨q, g⟩ := hd
    by_cases hq : q = p
    · simp [diskPut, hq]
    · simp [diskPut, hq, ih]

lemma diskGet_diskPut_self (d : Disk) (p : String) (f : FsFile) :
    diskGet (diskPut d p f) p = some f := by
  induction d with
  | nil => simp [diskPut, diskGet]
  | cons hd t ih =>
    obtain ⟨q, g⟩ := hd
    by_cases hq : q = p
    · simp [diskPut, diskGet, hq]
    · simp [diskPut, diskGet, hq, ih]

lemma save_to_file_zero_eq_plain (k : Nat) (env : Env) (w : World) (p : Profile) (args : Args) :
    save_to_file (k + 1) env w p args 0 = save_plain_fn env w p args := by
  simp only [save_to_file, save_plain_fn]
  split
  · rfl
  · split
    · rfl
    · simp

end Theca

namespace Theca

lemma save_to_file_fresh (k : Nat) (env : Env) (w : World) (p : Profile) (args : Args)
    (fp : Nat) (file : FsFile) (hnp : args.cmd_new_profile = false)
    (hget : diskGet w.disk (savePath args) = some file) (hfp : env.fpOf file = fp) :
    save_to_file (k + 1) env w p args fp = .ok (write_profile w p args (savePath args)) := by
  simp only [save_to_file, hnp, Bool.false_eq_true, if_false, false_and, if_true]
  simp only [savePath] at hget
  by_cases h0 : 0 < fp
  · simp only [h0, if_true, hget]
    have hcond : ¬(env.fpOf file ≠ fp ∧ args.flag_yes = false) := by
      intro hc
      exact hc.1 hfp
    rw [if_neg hcond]
    rfl
  · simp [h0, savePath]

lemma save_to_file_merge (k : Nat) (env : Env) (w : World) (p : Profile) (args : Args)
    (fp : Nat) (file : FsFile) (hnp : args.cmd_new_profile = false) (hfp : 0 < fp)
    (hget : diskGet w.disk (savePath args) = some file) (hne : env.fpOf file ≠ fp)
    (hyes : args.flag_yes = false)
    (hconf : env.confirm (Prompt.merge args.flag_profile) = true) :
    save_to_file (k + 2) env w p args fp =
      (match mergeNewArgs p args with
       | .error e => .error e
       | .ok new_args =>
         match Profile.new env w new_args.flag_profile new_args.flag_profile_folder
             new_args.flag_key new_args.cmd_new_profile new_args.flag_encrypted
             new_args.flag_yes with
         | .error e => .error e
         | .ok ((changed_profile, changed_fp), w1) =>
           match parse_cmds (k + 1) env w1 changed_profile new_args changed_fp with
           | .error e => .error e
           | .ok (w2, p2, args2) => save_to_file (k + 1) env w2 p2 args2 0) := by
  have hk2 : k + 2 = (k + 1) + 1 := rfl
  rw [hk2]
  simp only [save_to_file, hnp, Bool.false_eq_true, if_false, false_and, if_true]
  simp only [savePath] at hget
  simp only [hfp, if_true, hget, hne, hyes, and_self, if_true, hconf, Bool.true_eq_false,
    if_false, ne_eq, not_false_iff]

end Theca

namespace Theca

lemma parse_cmds_add (k : Nat) (env : Env) (w : World) (p : Profile) (args : Args) (fp : Nat)
    (h_add : args.cmd_add = true) (h_edit : args.cmd_edit = false) (h_del : args.cmd_del = false)
    (h_tr : args.cmd_transfer = false) (h_cl : args.cmd_clear = false)
    (h_de : args.cmd_decrypt_profile = false) (h_en : args.cmd_encrypt_profile = false)
    (h_np : args.cmd_new_profile = false) :
    parse_cmds (k + 1) env w p args fp =
      (match save_to_file k env w
          (add_note env p args.arg_title args.flag_body
            (extract_status args.flag_none args.flag_started args.flag_urgent)
            args.cmd__ args.flag_editor) args fp with
       | .error e => .error e
       | .ok w2 =>
         .ok (w2,
           add_note env p args.arg_title args.flag_body
             (extract_status args.flag_none args.flag_started args.flag_urgent)
             args.cmd__ args.flag_editor, args)) := by
  simp only [parse_cmds, h_add, h_edit, h_del, h_tr, h_cl, h_de, h_en, h_np, Bool.false_eq_true,
    if_false, if_true, true_or, false_and, and_false, ite_false, ite_true]

end Theca

namespace Theca

lemma Profile_new_existing_plain (env : Env) (w : World) (name folder key : String)
    (yes : Bool) (file : FsFile) (hget : diskGet w.disk (profilePath folder name) = some file)
    (hfe : file.enc = none) :
    Profile.new env w name folder key false false yes = .ok ((file.prof, env.fpOf file), w) := by
  simp [Profile.new, from_existing, hget, hfe]
  rfl

/-- The claim C1 theorem (amended): the merge replay runs only when confirm
(flag_yes) is false, the on-disk fingerprint differs from the expected one,
and the user answers yes to the merge prompt; then save re-loads the
profile fresh from disk, re-executes the originally requested command (an
add here) against that fresh profile, and writes that result with
fingerprint 0, so the final on-disk content is the externally modified
file with the add re-applied and the stale in-memory profile is discarded.
With confirm true the conflict path is skipped entirely, as the separate
counterexample shows. -/
theorem c1_merge_replay_add (n : Nat) (env : Env) (w : World) (p : Profile) (args : Args)
    (fp : Nat) (file : FsFile)
    (h_add : args.cmd_add = true) (h_edit : args.cmd_edit = false) (h_del : args.cmd_del = false)
    (h_tr : args.cmd_transfer = false) (h_cl : args.cmd_clear = false)
    (h_de : args.cmd_decrypt_profile = false) (h_en : args.cmd_encrypt_profile = false)
    (h_np : args.cmd_new_profile = false) (h_st : args.cmd__ = false)
    (h_ed : args.flag_editor = false) (h_yes : args.flag_yes = false)
    (h_enc : args.flag_encrypted = false) (h_fp : 0 < fp)
    (h_file : diskGet w.disk (savePath args) = some file) (h_fe : file.enc = none)
    (h_pe : file.prof.encrypted = false) (h_ne : env.fpOf file ≠ fp)
    (h_conf : env.confirm (Prompt.merge args.flag_profile) = true) :
    save_to_file (n + 3) env w p args fp =
      .ok { w with disk := (diskPut w.disk (savePath args)
        ⟨{ encrypted := false,
           notes := file.prof.notes ++
             [{ id := lastId file.prof.notes + 1, title := stripNL args.arg_title,
                status := (extract_status args.flag_none args.flag_started
                  args.flag_urgent).getD Status.Blank,
                body := match args.flag_body with
                        | [] => ""
                        | b :: _ => b,
                last_touched := env.now }] }, none⟩) } := by
  have h3 : n + 3 = (n + 1) + 2 := rfl
  rw [h3, save_to_file_merge (n + 1) env w p args fp file h_np h_fp h_file h_ne h_yes h_conf]
  have hm : mergeNewArgs p args = .ok args := by simp [mergeNewArgs, h_ed]
  simp only [hm]
  have hP : Profile.new env w args.flag_profile args.flag_profile_folder args.flag_key
      args.cmd_new_profile args.flag_encrypted args.flag_yes =
      .ok ((file.prof, env.fpOf file), w) := by
    rw [h_np, h_enc]
    exact Profile_new_existing_plain env w args.flag_profile args.flag_profile_folder
      args.flag_key args.flag_yes file h_file h_fe
  simp only [hP]
  rw [parse_cmds_add (n + 1) env w file.prof args (env.fpOf file) h_add h_edit h_del h_tr h_cl
    h_de h_en h_np]
  rw [save_to_file_fresh n env w
    (add_note env file.prof args.arg_title args.flag_body
      (extract_status args.flag_none args.flag_started args.flag_urgent)
      args.cmd__ args.flag_editor) args (env.fpOf file) file h_np h_file rfl]
  simp only []
  rw [save_to_file_zero_eq_plain]
  simp only [save_plain_fn, h_np, Bool.false_eq_true, if_false, false_and, ite_false]
  unfold write_profile
  simp only [savePath, diskPut_diskPut]
  have hadd : add_note env file.prof args.arg_title args.flag_body
      (extract_status args.flag_none args.flag_started args.flag_urgent) args.cmd__
      args.flag_editor =
      { encrypted := false,
        notes := file.prof.notes ++
          [{ id := lastId file.prof.notes + 1, title := stripNL args.arg_title,
             status := (extract_status args.flag_none args.flag_started
               args.flag_urgent).getD Status.Blank,
             body := match args.flag_body with
                     | [] => ""
                     | b :: _ => b,
             last_touched := env.now }] } := by
    simp [add_note, h_st, h_ed, h_pe]
  rw [hadd]
  rfl

end Theca

namespace Theca

theorem c1_merge_replay_add_witness :
    save_to_file 4 env0 wMerge pStale argsAdd 1 =
      .ok { wMerge with disk := (diskPut wMerge.disk (savePath argsAdd)
        ⟨{ encrypted := false,
           notes := pFresh.notes ++
             [{ id := lastId pFresh.notes + 1, title := stripNL argsAdd.arg_title,
                status := (extract_status argsAdd.flag_none argsAdd.flag_started
                  argsAdd.flag_urgent).getD Status.Blank,
                body := match argsAdd.flag_body with
                        | [] => ""
                        | b :: _ => b,
                last_touched := env0.now }] }, none⟩) } :=
  c1_merge_replay_add 1 env0 wMerge pStale argsAdd 1 ⟨pFresh, none⟩ rfl rfl rfl rfl rfl rfl
    rfl rfl rfl rfl rfl rfl (by decide) rfl rfl rfl (by decide) rfl

/-- Counterexample to claim C1 as stated: with confirm (flag_yes) true and
diverging fingerprints, save_to_file skips the conflict path entirely and
writes the stale in-memory profile, which differs from the fresh reload
with the pending add re-applied. -/
theorem c1_counterexample :
    save_to_file 4 env0 wMerge pStale { argsAdd with flag_yes := true } 1 =
      .ok { disk := [("f/p.json", ⟨pStale, none⟩)], dirs := ["f"] } ∧
    pStale ≠ ⟨false, pFresh.notes ++ [⟨3, "t", Status.Blank, "B", "T"⟩]⟩ := by
  exact ⟨rfl, by decide⟩

end Theca

namespace Theca

/-- The claim C2 theorem (amended): during a confirmed merge replay of a
command whose original operation used the external editor, the replay
disables the editor path and substitutes as the literal body argument the
last note body of the STALE in-memory profile being saved (the body the
original editor session produced; empty when it has no notes) - not the
freshly loaded profile's last note body, since the substitution happens
before the fresh load. -/
theorem c2_replay_uses_stale_editor_body (n : Nat) (env : Env) (w : World) (p : Profile)
    (args : Args) (fp : Nat) (file : FsFile) (b0 : String) (rest : List String)
    (h_add : args.cmd_add = true) (h_edit : args.cmd_edit = false) (h_del : args.cmd_del = false)
    (h_tr : args.cmd_transfer = false) (h_cl : args.cmd_clear = false)
    (h_de : args.cmd_decrypt_profile = false) (h_en : args.cmd_encrypt_profile = false)
    (h_np : args.cmd_new_profile = false) (h_st : args.cmd__ = false)
    (h_ed : args.flag_editor = true) (h_fb : args.flag_body = b0 :: rest)
    (h_yes : args.flag_yes = false) (h_enc : args.flag_encrypted = false) (h_fp : 0 < fp)
    (h_file : diskGet w.disk (savePath args) = some file) (h_fe : file.enc = none)
    (h_pe : file.prof.encrypted = false) (h_ne : env.fpOf file ≠ fp)
    (h_conf : env.confirm (Prompt.merge args.flag_profile) = true) :
    save_to_file (n + 3) env w p args fp =
      .ok { w with disk := (diskPut w.disk (savePath args)
        ⟨{ encrypted := false,
           notes := file.prof.notes ++
             [{ id := lastId file.prof.notes + 1, title := stripNL args.arg_title,
                status := (extract_status args.flag_none args.flag_started
                  args.flag_urgent).getD Status.Blank,
                body := match p.notes.getLast? with
                        | some nn => nn.body
                        | none => "",
                last_touched := env.now }] }, none⟩) } := by
  have h3 : n + 3 = (n + 1) + 2 := rfl
  rw [h3, save_to_file_merge (n + 1) env w p args fp file h_np h_fp h_file h_ne h_yes h_conf]
  set na : Args := { args with
    flag_editor := false
    flag_body := ((match p.notes.getLast? with
                   | some nn => nn.body
                   | none => "") :: rest) } with hna
  have hm : mergeNewArgs p args = .ok na := by
    rw [hna]
    simp [mergeNewArgs, h_ed, h_fb, listSet0]
    rfl
  simp only [hm]
  have hP : Profile.new env w na.flag_profile na.flag_profile_folder na.flag_key
      na.cmd_new_profile na.flag_encrypted na.flag_yes =
      .ok ((file.prof, env.fpOf file), w) := by
    show Profile.new env w args.flag_profile args.flag_profile_folder args.flag_key
      args.cmd_new_profile args.flag_encrypted args.flag_yes = _
    rw [h_np, h_enc]
    exact Profile_new_existing_plain env w args.flag_profile args.flag_profile_folder
      args.flag_key args.flag_yes file h_file h_fe
  simp only [hP]
  rw [parse_cmds_add (n + 1) env w file.prof na (env.fpOf file) h_add h_edit h_del h_tr h_cl
    h_de h_en h_np]
  rw [save_to_file_fresh n env w
    (add_note env file.prof na.arg_title na.flag_body
      (extract_status na.flag_none na.flag_started na.flag_urgent) na.cmd__ na.flag_editor)
    na (env.fpOf file) file h_np h_file rfl]
  simp only []
  rw [save_to_file_zero_eq_plain]
  have hplain : ∀ (w2 : World) (p2 : Profile), save_plain_fn env w2 p2 na =
      .ok (write_profile w2 p2 na (savePath args)) := by
    intro w2 p2
    show save_plain_fn env w2 p2 na = _
    simp only [save_plain_fn]
    simp only [h_np, Bool.false_eq_true, if_false, false_and, ite_false]
    rfl
  rw [hplain]
  have hadd : add_note env file.prof na.arg_title na.flag_body
      (extract_status na.flag_none na.flag_started na.flag_urgent) na.cmd__ na.flag_editor =
      { encrypted := false,
        notes := file.prof.notes ++
          [{ id := lastId file.prof.notes + 1, title := stripNL args.arg_title,
             status := (extract_status args.flag_none args.flag_started
               args.flag_urgent).getD Status.Blank,
             body := match p.notes.getLast? with
                     | some nn => nn.body
                     | none => "",
             last_touched := env.now }] } := by
    rw [hna]
    simp [add_note, h_st, h_pe]
  rw [hadd]
  unfold write_profile
  simp only [savePath, diskPut_diskPut]
  rfl

end Theca

namespace Theca

theorem c2_replay_uses_stale_editor_body_witness :
    save_to_file 4 env0 wMerge pStale { argsAdd with flag_editor := true } 1 =
      .ok { wMerge with disk := (diskPut wMerge.disk
        (savePath { argsAdd with flag_editor := true })
        ⟨{ encrypted := false,
           notes := pFresh.notes ++
             [{ id := lastId pFresh.notes + 1,
                title := stripNL ({ argsAdd with flag_editor := true } : Args).arg_title,
                status := (extract_status argsAdd.flag_none argsAdd.flag_started
                  argsAdd.flag_urgent).getD Status.Blank,
                body := match pStale.notes.getLast? with
                        | some nn => nn.body
                        | none => "",
                last_touched := env0.now }] }, none⟩) } :=
  c2_replay_uses_stale_editor_body 1 env0 wMerge pStale { argsAdd with flag_editor := true } 1
    ⟨pFresh, none⟩ "B" [] rfl rfl rfl rfl rfl rfl rfl rfl rfl rfl rfl rfl rfl (by decide)
    rfl rfl rfl (by decide) rfl

/-- Counterexample to claim C2 as stated: in a confirmed merge replay of an
editor add, the replayed body is the last note body of the stale in-memory
profile ("S"), not the freshly loaded profile's last note body ("F"): the
substitution at lines 150-157 reads self.notes.last() before the fresh
profile is loaded. -/
theorem c2_counterexample :
    save_to_file 4 env0 wMerge pStale { argsAdd with flag_editor := true } 1 =
      .ok { disk := [("f/p.json",
        ⟨⟨false, pFresh.notes ++ [⟨3, "t", Status.Blank, "S", "T"⟩]⟩, none⟩)], dirs := ["f"] } ∧
    pFresh.notes.getLast?.map Item.body = some "F" ∧
    pStale.notes.getLast?.map Item.body = some "S" ∧
    ("S" : String) ≠ "F" := by
  exact ⟨rfl, rfl, rfl, by decide⟩

/-- The claim C3 theorem: a save invoked with expected fingerprint 0
coincides with the conflict-free plain-save evaluation (the conflict block
is never entered), and a confirmed merge replay re-executes the pending
command and then saves its result with fingerprint 0, that final save again
being the plain conflict-free one: the merge-replay recursion inside
save_to_file is bounded to exactly one level. -/
theorem c3_merge_replay_bounded :
    (∀ (k : Nat) (env : Env) (w : World) (p : Profile) (args : Args),
      save_to_file (k + 1) env w p args 0 = save_plain_fn env w p args) ∧
    (∀ (k : Nat) (env : Env) (w : World) (p : Profile) (args : Args) (fp : Nat) (file : FsFile),
      args.cmd_new_profile = false → 0 < fp →
      diskGet w.disk (savePath args) = some file →
      env.fpOf file ≠ fp → args.flag_yes = false →
      env.confirm (Prompt.merge args.flag_profile) = true →
      save_to_file (k + 2) env w p args fp =
        (match mergeNewArgs p args with
         | .error e => .error e
         | .ok new_args =>
           match Profile.new env w new_args.flag_profile new_args.flag_profile_folder
               new_args.flag_key new_args.cmd_new_profile new_args.flag_encrypted
               new_args.flag_yes with
           | .error e => .error e
           | .ok ((changed_profile, changed_fp), w1) =>
             match parse_cmds (k + 1) env w1 changed_profile new_args changed_fp with
             | .error e => .error e
             | .ok (w2, p2, args2) => save_plain_fn env w2 p2 args2)) := by
  constructor
  · intro k env w p args
    exact save_to_file_zero_eq_plain k env w p args
  · intro k env w p args fp file h_np h_fp h_file h_ne h_yes h_conf
    rw [save_to_file_merge k env w p args fp file h_np h_fp h_file h_ne h_yes h_conf]
    cases hm : mergeNewArgs p args with
    | error e => rfl
    | ok na =>
      cases hP : Profile.new env w na.flag_profile na.flag_profile_folder na.flag_key
          na.cmd_new_profile na.flag_encrypted na.flag_yes with
      | error e => simp only [hP]
      | ok v =>
        obtain ⟨⟨cp, cfp⟩, w1⟩ := v
        simp only [hP]
        cases hpc : parse_cmds (k + 1) env w1 cp na cfp with
        | error e => simp only [hpc]
        | ok t =>
          obtain ⟨w2, p2, args2⟩ := t
          simp only [hpc]
          exact save_to_file_zero_eq_plain k env w2 p2 args2

end Theca

namespace Theca

theorem c3_merge_replay_bounded_witness :
    save_to_file 2 env0 wMerge pStale argsAdd 0 = save_plain_fn env0 wMerge pStale argsAdd ∧
    save_to_file 3 env0 wMerge pStale argsAdd 1 =
      (match mergeNewArgs pStale argsAdd with
       | .error e => .error e
       | .ok new_args =>
         match Profile.new env0 wMerge new_args.flag_profile new_args.flag_profile_folder
             new_args.flag_key new_args.cmd_new_profile new_args.flag_encrypted
             new_args.flag_yes with
         | .error e => .error e
         | .ok ((changed_profile, changed_fp), w1) =>
           match parse_cmds 2 env0 w1 changed_profile new_args changed_fp with
           | .error e => .error e
           | .ok (w2, p2, args2) => save_plain_fn env0 w2 p2 args2) :=
  ⟨c3_merge_replay_bounded.1 1 env0 wMerge pStale argsAdd,
   c3_merge_replay_bounded.2 1 env0 wMerge pStale argsAdd 1 ⟨pFresh, none⟩ rfl (by decide)
     rfl (by decide) rfl rfl⟩

end Theca

namespace Theca

lemma find?_findIndex {notes : List Item} {pred : Item → Bool} {a : Item}
    (h : notes.find? pred = some a) : ∃ e, findIndex pred notes = some e := by
  induction notes with
  | nil => simp at h
  | cons x t ih =>
    by_cases hp : pred x
    · exact ⟨0, by simp [findIndex, hp]⟩
    · rw [List.find?_cons_of_neg _ hp] at h
      rcases ih h with ⟨e, he⟩
      exact ⟨e + 1, by simp [findIndex, hp, he]⟩

/-- The claim C8 theorem (amended): transferring an existing note to a
distinct, existing destination profile appends to the destination a copy
with a fresh id (allocated by add_note's rule there), the source title up
to newline stripping, and the status and body unchanged, persists the
destination, and removes exactly the original from the source; the removal
is by the very position whose existence the successful copy established, so
it cannot fail after a successful copy, and the operation succeeds (never
reporting the transfer-incomplete error whose branch would abort without
saving the destination). -/
theorem c8_transfer_copies_then_removes (k : Nat) (env : Env) (w : World) (p : Profile)
    (args : Args) (destName : String) (rest : List String) (nid : Nat) (idrest : List Nat)
    (destFile : FsFile) (n : Item)
    (h_an : args.arg_name = destName :: rest) (h_dn : args.flag_profile ≠ destName)
    (h_np : args.cmd_new_profile = false) (h_enc : args.flag_encrypted = false)
    (h_id : args.arg_id = nid :: idrest)
    (h_dest : diskGet w.disk (profilePath args.flag_profile_folder destName) = some destFile)
    (h_fe : destFile.enc = none) (h_pe : destFile.prof.encrypted = false)
    (h_find : p.notes.find? (fun m => m.id == nid) = some n) :
    ∃ e, findIndex (fun m => m.id == nid) p.notes = some e ∧
      transfer_note (k + 2) env w p args =
        .ok ({ w with disk := (diskPut w.disk (profilePath args.flag_profile_folder destName)
            ⟨{ encrypted := false,
               notes := destFile.prof.notes ++
                 [{ id := lastId destFile.prof.notes + 1, title := stripNL n.title,
                    status := n.status, body := n.body, last_touched := env.now }] },
              none⟩) },
          { p with notes := p.notes.eraseIdx e }) := by
  rcases find?_findIndex h_find with ⟨e, he⟩
  refine ⟨e, he, ?_⟩
  have h2 : k + 2 = (k + 1) + 1 := rfl
  rw [h2]
  have hga : listGet0 args.arg_name = .ok destName := by rw [h_an]; rfl
  have hgi : listGet0 args.arg_id = .ok nid := by rw [h_id]; rfl
  simp only [transfer_note, hga]
  rw [if_neg h_dn]
  have hP : Profile.new env w destName args.flag_profile_folder args.flag_key
      args.cmd_new_profile args.flag_encrypted args.flag_yes =
      .ok ((destFile.prof, env.fpOf destFile), w) := by
    rw [h_np, h_enc]
    exact Profile_new_existing_plain env w destName args.flag_profile_folder
      args.flag_key args.flag_yes destFile h_dest h_fe
  simp only [hP, hgi, h_find, he]
  rw [save_to_file_fresh k env w
    (add_note env destFile.prof n.title [n.body] (some n.status) false false)
    { args with flag_profile := destName } (env.fpOf destFile) destFile h_np h_dest rfl]
  have hadd : add_note env destFile.prof n.title [n.body] (some n.status) false false =
      { encrypted := false,
        notes := destFile.prof.notes ++
          [{ id := lastId destFile.prof.notes + 1, title := stripNL n.title,
             status := n.status, body := n.body, last_touched := env.now }] } := by
    simp [add_note, h_pe]
  rw [hadd]
  rfl

end Theca

namespace Theca

theorem c8_transfer_copies_then_removes_witness :
    ∃ e, findIndex (fun m => m.id == 1) pTransfer.notes = some e ∧
      transfer_note 2 env0 wTransfer pTransfer argsTransfer =
        .ok ({ wTransfer with disk := (diskPut wTransfer.disk
            (profilePath argsTransfer.flag_profile_folder "q")
            ⟨{ encrypted := false,
               notes := ([] : List Item) ++
                 [{ id := lastId ([] : List Item) + 1, title := stripNL "x",
                    status := Status.Blank, body := "B", last_touched := env0.now }] },
              none⟩) },
          { pTransfer with notes := pTransfer.notes.eraseIdx e }) :=
  c8_transfer_copies_then_removes 0 env0 wTransfer pTransfer argsTransfer "q" [] 1 []
    ⟨⟨false, []⟩, none⟩ ⟨1, "x", Status.Blank, "B", "T"⟩ rfl (by decide) rfl rfl rfl rfl rfl
    rfl rfl

/-- Counterexample to claim C8 as stated: the copy placed in the destination
does not carry a title identical to the original when the original title
contains a newline, because add_note strips newlines: transferring a note
titled with an embedded newline yields a destination copy with the stripped
title. -/
theorem c8_counterexample :
    transfer_note 2 env0 wTransfer ⟨false, [⟨3, "X\nY", Status.Started, "B", "T"⟩]⟩
        { argsTransfer with arg_id := [3] } =
      .ok (⟨[("f/q.json", ⟨⟨false, [⟨1, "XY", Status.Started, "B", "T"⟩]⟩, none⟩)], ["f"]⟩,
        ⟨false, []⟩) ∧
    ("XY" : String) ≠ "X\nY" := by
  exact ⟨rfl, by decide⟩

end Theca
